import Mathlib

/-!
# Braindump core: shallow embedding and verification

A shallow embedding of the core of the `braindump` memory substrate:
the in-memory vector store (`src/vector_store.rs`), the eviction-scored
cache (`src/memory/cache.rs`) and the memory manager
(`src/memory/manager.rs`), together with theorems settling the frozen
claims about it.

Modelling conventions:
* `f32` values (embedding scalars, `importance`) are modelled as `ℚ`;
  none of the store's control flow inspects float values except through
  the similarity score, which is kept as an explicit parameter, and the
  eviction score, whose `as i64` cast is modelled as truncation toward
  zero on `ℚ`.
* Rust `HashMap`s are modelled as association lists; `HashMap`
  iteration order is unspecified in Rust, and the list order plays the
  role of that arbitrary iteration order.
* `Vec` used as a stack (the free list) is modelled as a `List` with
  push = cons and pop = head, preserving the LIFO discipline of
  `Vec::push`/`Vec::pop`.
* Fallible operations return `Except StorageError`; operations that can
  additionally panic (out-of-bounds slicing, `unwrap`) return
  `RustResult`, whose `panic` constructor marks a Rust panic.  An error
  return models the Rust functions' behaviour of erroring before any
  mutation, so the caller's state is unchanged.
* `chrono::Utc::now()` and the random sample drawn by
  `rand`'s `choose_multiple` are inherently external; they are passed in
  as explicit parameters (`now`, `sample`).
-/

namespace Braindump

/-! ## Data model (`src/memory/mod.rs`, `src/error.rs`) -/

/-- `MemoryKind` from `src/memory/mod.rs`. -/
inductive MemoryKind where
  | Working
  | Episodic
  | Semantic
deriving DecidableEq, Repr

/-- `Confidence` from `src/memory/mod.rs`. -/
inductive Confidence where
  | Low
  | Medium
  | High
deriving DecidableEq, Repr

/-- `MetadataEntry` from `src/memory/mod.rs`. -/
structure MetadataEntry where
  key : String
  value : String
deriving DecidableEq, Repr

/-- `MemoryEntry` from `src/memory/mod.rs`.  `importance : f32` is
modelled as `ℚ`; `created_at`/`last_accessed : i64` as `Int`;
`access_count : u32` as `Nat` (no operation here brings it near
`2^32`). -/
structure MemoryEntry where
  id : String
  content : String
  kind : MemoryKind
  importance : ℚ
  created_at : Int
  last_accessed : Int
  access_count : Nat
  source_context : String
  confidence : Confidence
  metadata : List MetadataEntry
deriving DecidableEq, Repr

/-- `StorageError` from `src/error.rs`. -/
inductive StorageError where
  | EmbeddingNotExists (id : String)
  | MismatchedDimensions (expected got : Nat)
deriving DecidableEq, Repr

/-- Result of a Rust function that may return an error or panic.
`panic` models an actual Rust panic (out-of-bounds slice index,
`Option::unwrap` on `None`). -/
inductive RustResult (α : Type) where
  | ok (val : α)
  | err (e : StorageError)
  | panic
deriving DecidableEq, Repr

/-- Modelled from the spec: `SearchResult` is imported by
`vector_store.rs` from `storage.rs` but its definition is not among the
provided sources; per the spec, a search result is the pair
`(embedding, entry)`, built with `SearchResult::new(embedding, payload)`. -/
structure SearchResult where
  embedding : List ℚ
  entry : MemoryEntry
deriving DecidableEq, Repr

/-! ## Association-list maps

Rust `HashMap` modelled as an association list.  `mapInsert` replaces
any existing binding (as `HashMap::insert` does) and `mapRemove`
removes the key's binding (as `HashMap::remove` does); list order
stands in for the `HashMap`'s arbitrary iteration order. -/

/-- The first binding of key `k`, mirroring
`HashMap::get` / `iter().find(|x| x.0 == &id)`. -/
def mapLookup {β : Type} (k : String) : List (String × β) → Option β
  | [] => none
  | (k', v) :: rest => if k' = k then some v else mapLookup k rest

/-- Insert-or-replace a binding, mirroring `HashMap::insert`. -/
def mapInsert {β : Type} (k : String) (v : β) (m : List (String × β)) :
    List (String × β) :=
  (k, v) :: m.filter (fun p => p.1 ≠ k)

/-- Remove a key's binding, mirroring `HashMap::remove`. -/
def mapRemove {β : Type} (k : String) (m : List (String × β)) :
    List (String × β) :=
  m.filter (fun p => p.1 ≠ k)

/-! ## List slices

`data[offset .. offset + len]` on a `Vec<f32>`.  Rust panics when the
range exceeds the vector's bounds; the callers below perform that
bounds check explicitly and return `RustResult.panic` when it fails. -/

/-- The slice `l[off .. off + len]` (meaningful when `off + len ≤ l.length`). -/
def listSlice {α : Type} (off len : Nat) (l : List α) : List α :=
  (l.drop off).take len

/-- `l[off .. off + src.length].copy_from_slice(src)` (meaningful when
`off + src.length ≤ l.length`). -/
def writeSlice {α : Type} (off : Nat) (src l : List α) : List α :=
  l.take off ++ src ++ l.drop (off + src.length)

/-! ## The in-memory vector store (`src/vector_store.rs`) -/

/-- `InMemoryDB` from `src/vector_store.rs`.  The embedding buffer
`data : Vec<f32>` is a `List ℚ`; `payloads` and `id_to_idx` are the two
hash maps; `free_list` is the stack of freed slot offsets. -/
structure InMemoryDB where
  dim : Nat
  data : List ℚ
  payloads : List (String × MemoryEntry)
  id_to_idx : List (String × Nat)
  free_list : List Nat
deriving DecidableEq, Repr

namespace InMemoryDB

/-- `InMemoryDB::new`. -/
def new (dim : Nat) : InMemoryDB :=
  { dim := dim, data := [], payloads := [], id_to_idx := [], free_list := [] }

/-- `InMemoryDB::matches_dim_size`. -/
def matches_dim_size (s : InMemoryDB) (embedding : List ℚ) : Bool :=
  embedding.length = s.dim

/-- `Storage::insert` for `InMemoryDB`.  Rejects a dimension mismatch
before touching any state; otherwise pops a free slot and overwrites it
in place (panicking, like `copy_from_slice` on an out-of-range slice,
if the popped offset is out of bounds), or appends at the end of the
buffer.  Finally records `id -> slot` and `id -> entry`. -/
def insert (s : InMemoryDB) (embedding : List ℚ) (entry : MemoryEntry) :
    RustResult InMemoryDB :=
  if s.matches_dim_size embedding then
    match s.free_list with
    | offset :: rest =>
      if offset + s.dim ≤ s.data.length then
        .ok { s with
          data := writeSlice offset embedding s.data
          free_list := rest
          id_to_idx := mapInsert entry.id offset s.id_to_idx
          payloads := mapInsert entry.id entry s.payloads }
      else .panic
    | [] =>
      .ok { s with
        data := s.data ++ embedding
        id_to_idx := mapInsert entry.id s.data.length s.id_to_idx
        payloads := mapInsert entry.id entry s.payloads }
  else .err (.MismatchedDimensions s.dim embedding.length)

/-- The scoring loop of `Storage::search`: for each `(id, idx)` in the
index map it computes `offset = idx * dim` and reads
`data[offset .. offset + dim]` (panic — `none` — when out of bounds),
then pushes `(id, &embedding, score)` where `embedding` is the *query*
vector, exactly as the source does.  `score` abstracts the f32
`cosine_similarity` computation. -/
def searchRows (score : List ℚ → List ℚ → ℚ) (s : InMemoryDB)
    (embedding : List ℚ) : List (String × Nat) → Option (List (String × List ℚ × ℚ))
  | [] => some []
  | (id, idx) :: rest =>
    let offset := idx * s.dim
    if offset + s.dim ≤ s.data.length then
      let arr := listSlice offset s.dim s.data
      match searchRows score s embedding rest with
      | some out => some ((id, embedding, score embedding arr) :: out)
      | none => none
    else none

/-- The final mapping step of `Storage::search`:
`self.payloads.get(id).cloned().unwrap()` — `none` models the `unwrap`
panic when a payload is missing. -/
def attachPayloads (s : InMemoryDB) :
    List (String × List ℚ × ℚ) → Option (List SearchResult)
  | [] => some []
  | (id, emb, _) :: rest =>
    match mapLookup id s.payloads with
    | some payload =>
      match attachPayloads s rest with
      | some out => some ({ embedding := emb, entry := payload } :: out)
      | none => none
    | none => none

/-- `Storage::search` for `InMemoryDB`: score every row of `id_to_idx`
(at `offset = idx * dim`), sort descending by score (`sort_by` is a
stable sort; the comparator `b.2.partial_cmp(&a.2)` puts larger scores
first), truncate to `limit`, then attach payloads. -/
def search (score : List ℚ → List ℚ → ℚ) (s : InMemoryDB)
    (embedding : List ℚ) (limit : Nat) : RustResult (List SearchResult) :=
  match searchRows score s embedding s.id_to_idx with
  | none => .panic
  | some out =>
    let sorted := out.mergeSort (fun a b => decide (b.2.2 ≤ a.2.2))
    match attachPayloads s (sorted.take limit) with
    | none => .panic
    | some results => .ok results

/-- `Storage::search_by_id` for `InMemoryDB`: find the id's offset in
`id_to_idx`, slice `data[pos .. pos + dim]` (panic when out of bounds),
and look up the payload. -/
def search_by_id (s : InMemoryDB) (id : String) : RustResult SearchResult :=
  match mapLookup id s.id_to_idx with
  | none => .err (.EmbeddingNotExists id)
  | some pos =>
    if pos + s.dim ≤ s.data.length then
      match mapLookup id s.payloads with
      | none => .err (.EmbeddingNotExists id)
      | some payload =>
        .ok { embedding := listSlice pos s.dim s.data, entry := payload }
    else .panic

/-- `Storage::delete` for `InMemoryDB`: remove the id from both maps
and push the freed offset onto the free list; `NotFound` when the id
has no slot. -/
def delete (s : InMemoryDB) (id : String) : Except StorageError InMemoryDB :=
  match mapLookup id s.id_to_idx with
  | none => .error (.EmbeddingNotExists id)
  | some arr_pos =>
    .ok { s with
      id_to_idx := mapRemove id s.id_to_idx
      payloads := mapRemove id s.payloads
      free_list := arr_pos :: s.free_list }

/-- `Storage::count` for `InMemoryDB`: `id_to_idx.len()`. -/
def count (s : InMemoryDB) : Nat :=
  s.id_to_idx.length

/-- `Storage::update_payload_by_id` for `InMemoryDB`:
`self.payloads.entry(id).insert_entry(payload)` — an unconditional
insert-or-replace of the payload, touching nothing else, always `Ok`. -/
def update_payload_by_id (s : InMemoryDB) (id : String)
    (payload : MemoryEntry) : Except StorageError InMemoryDB :=
  .ok { s with payloads := mapInsert id payload s.payloads }

end InMemoryDB

/-! ## The eviction-scored cache (`src/memory/cache.rs`) -/

/-- The Rust cast `q as i64` on a float value: truncation toward zero,
modelled on `ℚ`. -/
def f32AsI64 (q : ℚ) : Int :=
  if 0 ≤ q then ⌊q⌋ else ⌈q⌉

/-- `eviction_score` from `src/memory/cache.rs` — lower = more
evictable.  `chrono::Utc::now().timestamp()` is the explicit `now`
parameter; `(entry.importance * 100.0) as i64` is the truncating cast
`f32AsI64`. -/
def eviction_score (now : Int) (entry : MemoryEntry) : Int :=
  let recency := now - entry.last_accessed
  let frequency := (entry.access_count : Int)
  let importance := f32AsI64 (entry.importance * 100)
  frequency * 1000 + importance * 100 - recency

/-- `CacheStats` from `src/memory/cache.rs` (`u32` counters modelled as
`Nat`; nothing here approaches `2^32`). -/
structure CacheStats where
  hits : Nat
  misses : Nat
deriving DecidableEq, Repr

/-- `MemoryCache` from `src/memory/cache.rs`. -/
structure MemoryCache where
  store : InMemoryDB
  cache_stats : CacheStats
  max_memory_limit : Nat
deriving DecidableEq, Repr

/-- Sequential deletion, as the `for (_, id) in to_evict.iter().take(count)`
loop of `evict_from_cache` does: the first error short-circuits. -/
def deleteAll (s : InMemoryDB) : List String → Except StorageError InMemoryDB
  | [] => .ok s
  | id :: rest =>
    match s.delete id with
    | .error e => .error e
    | .ok s' => deleteAll s' rest

/-- `MemoryCache::evict_from_cache` acting on the underlying store.
The random sample drawn by `random_sample` (via `rand`'s
`choose_multiple`) is the explicit `sample` parameter; the source draws
`SAMPLE_SIZE.min(store_len)` entries, a property stated as a hypothesis
where it matters.  Each sampled entry is scored, the `(score, id)`
pairs are sorted ascending by score (`sort_by_key`, a stable sort), and
the first `count` ids are deleted from the store. -/
def evict_from_cache (now : Int) (sample : List MemoryEntry)
    (s : InMemoryDB) (count : Nat) : Except StorageError InMemoryDB :=
  let to_evict := sample.map (fun e => (eviction_score now e, e.id))
  let sorted := to_evict.mergeSort (fun a b => decide (a.1 ≤ b.1))
  deleteAll s ((sorted.take count).map Prod.snd)

/-! ## The memory manager (`src/memory/manager.rs`) -/

/-- `Error` from `src/error.rs` (the `Build` variant is not needed by
the modelled operations). -/
inductive Error where
  | Storage (e : StorageError)
  | Custom (msg : String)
  | NoOp
deriving DecidableEq, Repr

/-- Result of a manager operation that may error or panic. -/
inductive MgrResult (α : Type) where
  | ok (val : α)
  | err (e : Error)
  | panic
deriving DecidableEq, Repr

/-- `MemoryConfig` from `src/memory/manager.rs`.  The boxed
`CachingStrategyFn` closure is modelled as an optional
`MemoryEntry → Bool` (the Rust closure also receives the config by
reference; a self-referential field is not representable, and the
modelled call sites pass the fixed surrounding config). -/
structure MemoryConfig where
  max_total_memories : Option Nat
  max_age_days : Option Int
  min_retention_score : Option ℚ
  eviction_batch_size : Nat
  custom_caching_strategy : Option (MemoryEntry → Bool)

/-- `MemoryConfig::should_cache`: the custom strategy when present,
else the default `importance > 0.5 || access_count > 0`. -/
def MemoryConfig.should_cache (cfg : MemoryConfig) (entry : MemoryEntry) : Bool :=
  match cfg.custom_caching_strategy with
  | some strategy => strategy entry
  | none => decide (entry.importance > (1 : ℚ) / 2) || decide (entry.access_count > 0)

/-- The mutable state of a `MemoryManager` as the modelled operations
touch it: the optional hot cache.  The embedder and durable storage
collaborators are generic in the source (`MemoryManager<E, S>`) and are
passed to each operation as oracle functions; `embedCalls` instruments
how many times `embedder.embed_text` has been invoked. -/
structure MemoryManager where
  hot_cache : Option MemoryCache
  embedCalls : Nat

/-- `MemoryManager::retrieve`: embed the query once; if a hot cache is
configured, search it first, recording a hit when the result set is
non-empty and a miss otherwise; then, when fewer than `limit` results
were obtained, search durable storage for the remaining
`limit - results.len()` and append.  `embed` and `storageSearch` are
the generic embedder and durable-storage collaborators; `score`
abstracts the cache store's f32 cosine computation. -/
def MemoryManager.retrieve (score : List ℚ → List ℚ → ℚ)
    (embed : String → Except Error (List ℚ))
    (storageSearch : List ℚ → Nat → Except Error (List SearchResult))
    (m : MemoryManager) (query : String) (limit : Nat) :
    MgrResult (List SearchResult × MemoryManager) :=
  let m := { m with embedCalls := m.embedCalls + 1 }
  match embed query with
  | .error e => .err e
  | .ok embedding =>
    let step1 : MgrResult (List SearchResult × MemoryManager) :=
      match m.hot_cache with
      | some cache =>
        match cache.store.search score embedding limit with
        | .panic => .panic
        | .err e => .err (.Storage e)
        | .ok results =>
          let stats :=
            if results.isEmpty then
              { cache.cache_stats with misses := cache.cache_stats.misses + 1 }
            else
              { cache.cache_stats with hits := cache.cache_stats.hits + 1 }
          .ok (results,
            { m with hot_cache := some { cache with cache_stats := stats } })
      | none => .ok ([], m)
    match step1 with
    | .ok (results, m1) =>
      if results.length < limit then
        match storageSearch embedding (limit - results.length) with
        | .error e => .err e
        | .ok deep => .ok (results ++ deep, m1)
      else .ok (results, m1)
    | .err e => .err e
    | .panic => .panic

/-- `MemoryManager::update_memory_access`: bump `last_accessed` to
`now` and `access_count` by one; when the bumped entry qualifies under
`should_cache` and a hot cache exists, write the updated entry into the
cache store with `update_payload_by_id` (payload only, embedding
untouched). -/
def MemoryManager.update_memory_access (now : Int) (cfg : MemoryConfig)
    (m : MemoryManager) (memory : MemoryEntry) : Except Error MemoryManager :=
  let memory := { memory with
    last_accessed := now, access_count := memory.access_count + 1 }
  if cfg.should_cache memory then
    match m.hot_cache with
    | some cache =>
      match cache.store.update_payload_by_id memory.id memory with
      | .error e => .error (.Storage e)
      | .ok store' => .ok { m with hot_cache := some { cache with store := store' } }
    | none => .ok m
  else .ok m

/-! ## Association-list map lemmas -/

theorem mapLookup_cons {β : Type} (a : String) (b : β)
    (rest : List (String × β)) (k : String) :
    mapLookup k ((a, b) :: rest) = if a = k then some b else mapLookup k rest :=
  rfl

theorem mapRemove_cons {β : Type} (a : String) (b : β)
    (rest : List (String × β)) (k : String) :
    mapRemove k ((a, b) :: rest) =
      if a = k then mapRemove k rest else (a, b) :: mapRemove k rest := by
  by_cases h : a = k <;> simp [mapRemove, List.filter_cons, h]

theorem mapInsert_eq_cons_remove {β : Type} (k : String) (v : β)
    (m : List (String × β)) :
    mapInsert k v m = (k, v) :: mapRemove k m :=
  rfl

theorem mapLookup_remove_self {β : Type} (k : String) (m : List (String × β)) :
    mapLookup k (mapRemove k m) = none := by
  induction m with
  | nil => rfl
  | cons p rest ih =>
    obtain ⟨a, b⟩ := p
    rw [mapRemove_cons]
    by_cases h : a = k
    · simpa [h] using ih
    · simp [mapLookup_cons, h, ih]

theorem mapLookup_remove_ne {β : Type} {k k' : String} (h : k' ≠ k)
    (m : List (String × β)) :
    mapLookup k' (mapRemove k m) = mapLookup k' m := by
  induction m with
  | nil => rfl
  | cons p rest ih =>
    obtain ⟨a, b⟩ := p
    rw [mapRemove_cons]
    by_cases ha : a = k
    · subst ha
      rw [if_pos rfl, mapLookup_cons, if_neg (Ne.symm h)]
      exact ih
    · rw [if_neg ha, mapLookup_cons, mapLookup_cons]
      by_cases ha' : a = k' <;> simp [ha', ih]

theorem mapLookup_insert_self {β : Type} (k : String) (v : β)
    (m : List (String × β)) :
    mapLookup k (mapInsert k v m) = some v := by
  rw [mapInsert_eq_cons_remove, mapLookup_cons, if_pos rfl]

theorem mapLookup_insert_ne {β : Type} {k k' : String} (h : k' ≠ k) (v : β)
    (m : List (String × β)) :
    mapLookup k' (mapInsert k v m) = mapLookup k' m := by
  rw [mapInsert_eq_cons_remove, mapLookup_cons, if_neg (Ne.symm h)]
  exact mapLookup_remove_ne h m

theorem mapLookup_mem {β : Type} {k : String} {v : β} {m : List (String × β)}
    (h : mapLookup k m = some v) : (k, v) ∈ m := by
  induction m with
  | nil => simp [mapLookup] at h
  | cons p rest ih =>
    obtain ⟨a, b⟩ := p
    rw [mapLookup_cons] at h
    by_cases ha : a = k
    · subst ha
      rw [if_pos rfl] at h
      obtain rfl : b = v := by injection h
      exact List.mem_cons_self _ _
    · rw [if_neg ha] at h
      exact List.mem_cons_of_mem _ (ih h)

/-! ## Concrete fixtures used by witnesses and counterexamples -/

/-- A concrete `MemoryEntry` used by witnesses; `importance := 0` keeps
every field kernel-computable. -/
def testEntry (i : String) : MemoryEntry :=
  { id := i, content := "", kind := .Working, importance := 0,
    created_at := 0, last_accessed := 0, access_count := 0,
    source_context := "", confidence := .Low, metadata := [] }

/-! ## C5 — dimension mismatch -/

/-- C5: for every embedding `e` with `len(e) ≠ dim` and every entry,
`insert(e, entry)` fails with `DimensionMismatch(dim, len(e))` and does
not produce any new store state (the error is raised before any field
is touched, so the caller's store is unchanged: same `count()`, no
entry, no embedding recorded). -/
theorem insert_dimension_mismatch (s : InMemoryDB) (e : List ℚ)
    (entry : MemoryEntry) (h : e.length ≠ s.dim) :
    s.insert e entry = .err (.MismatchedDimensions s.dim e.length) ∧
      ∀ s', s.insert e entry ≠ .ok s' := by
  have hb : s.matches_dim_size e = false := by
    simp [InMemoryDB.matches_dim_size, h]
  constructor
  · simp [InMemoryDB.insert, hb]
  · intro s'
    simp [InMemoryDB.insert, hb]

/-- Witness for C5: a concrete 3-element embedding rejected by a
2-dimensional store. -/
theorem insert_dimension_mismatch_witness :
    (InMemoryDB.new 2).insert [1, 0, 3] (testEntry "a") =
      .err (.MismatchedDimensions 2 3) ∧
      ∀ s', (InMemoryDB.new 2).insert [1, 0, 3] (testEntry "a") ≠ .ok s' :=
  insert_dimension_mismatch (InMemoryDB.new 2) [1, 0, 3] (testEntry "a")
    (by decide)

/-! ## C6 — `update_payload_by_id` on an absent id -/

/-- The store produced by `update_payload_by_id "x"` on an empty
2-dimensional store: the payload appears with no embedding slot. -/
def c6store : InMemoryDB :=
  { dim := 2, data := [], payloads := [("x", testEntry "x")],
    id_to_idx := [], free_list := [] }

/-- Counterexample to C6: on an id whose payload does not exist,
`update_payload_by_id` does **not** fail with `NotFound` — it succeeds
and inserts a brand-new payload for the absent id
(`payloads.entry(id).insert_entry(payload)` is an unconditional
upsert). -/
theorem update_payload_absent_counterexample :
    mapLookup "x" (InMemoryDB.new 2).payloads = none ∧
      (InMemoryDB.new 2).update_payload_by_id "x" (testEntry "x") =
        .ok c6store ∧
      mapLookup "x" c6store.payloads = some (testEntry "x") := by
  refine ⟨rfl, rfl, rfl⟩

/-- C6 (amended): `update_payload_by_id(id, entry)` always succeeds:
it replaces the id's payload when present and inserts it when absent
(upsert), touching nothing else — the embedding buffer, the id-to-slot
index, the free list and `count()` are all unchanged. -/
theorem update_payload_upserts (s : InMemoryDB) (id : String)
    (p : MemoryEntry) :
    ∃ s', s.update_payload_by_id id p = .ok s' ∧
      mapLookup id s'.payloads = some p ∧
      (∀ id', id' ≠ id → mapLookup id' s'.payloads = mapLookup id' s.payloads) ∧
      s'.data = s.data ∧ s'.id_to_idx = s.id_to_idx ∧
      s'.free_list = s.free_list ∧ s'.dim = s.dim ∧ s'.count = s.count := by
  refine ⟨_, rfl, mapLookup_insert_self id p s.payloads, ?_, rfl, rfl, rfl, rfl, rfl⟩
  intro id' h
  exact mapLookup_insert_ne h p s.payloads

/-! ## C2 — `search` slice bounds

`insert` records in `id_to_idx` the *element offset* of each embedding
(`vec_len`, the buffer length before appending, or a popped free-list
offset), and `fetch_embedding`/`search_by_id` read
`data[pos_offset .. pos_offset + dim]` directly.  `search`, however,
computes `offset = idx * dim` from the same map.  With `dim = 2`, the
second fresh insert is recorded at offset `2`, and `search` reads
`data[4 .. 6]` of a 4-element buffer — out of bounds. -/

/-- The store after `insert([1,0], "a")` into a fresh 2-dimensional store. -/
def c2s1 : InMemoryDB :=
  { dim := 2, data := [1, 0], payloads := [("a", testEntry "a")],
    id_to_idx := [("a", 0)], free_list := [] }

/-- The store after additionally `insert([0,1], "b")`. -/
def c2s2 : InMemoryDB :=
  { dim := 2, data := [1, 0, 0, 1],
    payloads := [("b", testEntry "b"), ("a", testEntry "a")],
    id_to_idx := [("b", 2), ("a", 0)], free_list := [] }

/-- C2 is a code bug: a store reachable by two dimension-correct
inserts (dim = 2) on which `search` panics.  The slice access for id
`"b"` uses `offset = idx * dim = 2 * 2 = 4` and needs
`offset + dim = 6 ≤ 4 = data.length`, which fails, so `search` hits an
out-of-bounds slice — for every similarity function `score` (the panic
happens before any score is consulted). -/
theorem search_slice_out_of_bounds (score : List ℚ → List ℚ → ℚ) :
    (InMemoryDB.new 2).insert [1, 0] (testEntry "a") = .ok c2s1 ∧
      c2s1.insert [0, 1] (testEntry "b") = .ok c2s2 ∧
      mapLookup "b" c2s2.id_to_idx = some 2 ∧
      2 * c2s2.dim + c2s2.dim > c2s2.data.length ∧
      c2s2.search score [1, 0] 2 = .panic :=
  ⟨rfl, rfl, rfl, by decide, rfl⟩

/-! ## C1 — ranking correctness of `search`

The claim's scenario needs three live embeddings with three distinct
cosines against the query, which forces `dim ≥ 2`; but with `dim ≥ 2`
and three fresh inserts, the `offset = idx * dim` slip of C2 makes
`search` read out of bounds and panic before producing any ranking.
Failing input: `dim = 2`, `q = [1,0]`, `a = [1,0]` (cos = 1),
`b = [3,4]` (cos = 3/5), `c = [0,1]` (cos = 0). -/

/-- The store after `insert([1,0],"a")`, `insert([3,4],"b")`,
`insert([0,1],"c")` into a fresh 2-dimensional store. -/
def c1s3 : InMemoryDB :=
  { dim := 2, data := [1, 0, 3, 4, 0, 1],
    payloads := [("c", testEntry "c"), ("b", testEntry "b"),
                 ("a", testEntry "a")],
    id_to_idx := [("c", 4), ("b", 2), ("a", 0)], free_list := [] }

/-- C1 is a code bug: on the failing input (three live embeddings with
cosine(q,a) = 1 > cosine(q,b) = 3/5 > cosine(q,c) = 0), `search(q, 2)`
does not return `[a, b]` — it panics, for every similarity function
`score`: the row for id `"c"` is read at
`offset = 4 * 2 = 8` with `8 + 2 > 6 = data.length`. -/
theorem search_ranking_panics (score : List ℚ → List ℚ → ℚ) :
    ∃ s1 s2, (InMemoryDB.new 2).insert [1, 0] (testEntry "a") = .ok s1 ∧
      s1.insert [3, 4] (testEntry "b") = .ok s2 ∧
      s2.insert [0, 1] (testEntry "c") = .ok c1s3 ∧
      mapLookup "c" c1s3.id_to_idx = some 4 ∧
      4 * c1s3.dim + c1s3.dim > c1s3.data.length ∧
      c1s3.search score [1, 0] 2 = .panic :=
  ⟨_, _, rfl, rfl, rfl, rfl, by decide, rfl⟩

/-! ## C4 — eviction-score formula -/

/-- Modelled from the spec: the eviction-score formula exactly as
§4.2/§8 of the spec state it, with `importance_scaled =
round(importance * 100)` — for comparison against the implemented
`eviction_score`. -/
def specEvictionScore (now : Int) (entry : MemoryEntry) : Int :=
  (entry.access_count : Int) * 1000 +
    round (entry.importance * 100) * 100 - (now - entry.last_accessed)

/-- An entry with `importance = 0.999`, where truncation (code) and
rounding (claim) of `importance * 100 = 99.9` differ. -/
def c4entry : MemoryEntry :=
  { testEntry "1" with importance := 999 / 1000 }

/-- Counterexample to C4: the implemented score truncates
`importance * 100` toward zero (`as i64`) rather than rounding.  At
`importance = 0.999`, `access_count = 0`, `last_accessed = now = 0`,
the code's score is `⌊99.9⌋ * 100 = 9900` while the claimed formula
gives `round(99.9) * 100 = 10000`. -/
theorem eviction_score_round_counterexample :
    eviction_score 0 c4entry = 9900 ∧
      specEvictionScore 0 c4entry = 10000 ∧
      eviction_score 0 c4entry ≠ specEvictionScore 0 c4entry := by
  refine ⟨?_, ?_, ?_⟩
  · norm_num [eviction_score, f32AsI64, c4entry, testEntry]
  · norm_num [specEvictionScore, c4entry, testEntry, round_eq]
  · norm_num [eviction_score, specEvictionScore, f32AsI64, c4entry,
      testEntry, round_eq]

/-- Stable two-element merge sort evaluates to a single comparison. -/
theorem mergeSort_pair {α : Type} (le : α → α → Bool) (a b : α) :
    List.mergeSort [a, b] le = if le a b then [a, b] else [b, a] := by
  rw [List.mergeSort]
  simp [List.merge]

/-- The concrete scenario's entry `"1"`: importance 0.9, access count 5. -/
def c4e1 : MemoryEntry :=
  { testEntry "1" with importance := 9 / 10, access_count := 5 }

/-- The concrete scenario's entry `"2"`: importance 0.1, access count 0. -/
def c4e2 : MemoryEntry :=
  { testEntry "2" with importance := 1 / 10, access_count := 0 }

/-- The store holding the two scenario entries (dim 1, both embeddings `[1]`). -/
def c4store : InMemoryDB :=
  { dim := 1, data := [1, 1], payloads := [("2", c4e2), ("1", c4e1)],
    id_to_idx := [("2", 1), ("1", 0)], free_list := [] }

/-- `c4store` after evicting entry `"2"`. -/
def c4store' : InMemoryDB :=
  { dim := 1, data := [1, 1], payloads := [("1", c4e1)],
    id_to_idx := [("1", 0)], free_list := [1] }

/-- C4 (amended): the eviction score is
`access_count * 1000 + trunc(importance * 100) * 100 - (now - last_accessed)`
with truncation toward zero (the Rust `as i64` cast), not rounding; the
concrete scenario is unaffected: for entries
`{id:"1", importance:0.9, access_count:5}` and
`{id:"2", importance:0.1, access_count:0}` with equal `last_accessed`,
entry `"2"` scores strictly lower for every evaluation time, and
`evict(1)` on a store holding exactly these two deletes `"2"` and
keeps `"1"`. -/
theorem eviction_score_trunc_and_scenario :
    (∀ (now : Int) (e : MemoryEntry),
      eviction_score now e = (e.access_count : Int) * 1000 +
        f32AsI64 (e.importance * 100) * 100 - (now - e.last_accessed)) ∧
    (∀ (now la : Int),
      eviction_score now { c4e2 with last_accessed := la } <
        eviction_score now { c4e1 with last_accessed := la }) ∧
    (evict_from_cache 0 [c4e1, c4e2] c4store 1 = .ok c4store' ∧
      mapLookup "2" c4store'.payloads = none ∧
      mapLookup "1" c4store'.payloads = some c4e1) := by
  have h1 : eviction_score 0 c4e1 = 14000 := by
    norm_num [eviction_score, f32AsI64, c4e1, testEntry]
  have h2 : eviction_score 0 c4e2 = 1000 := by
    norm_num [eviction_score, f32AsI64, c4e2, testEntry]
  refine ⟨fun now e => rfl, ?_, ?_, rfl, rfl⟩
  · intro now la
    have e1 : f32AsI64 ((9 : ℚ) / 10 * 100) = 90 := by
      norm_num [f32AsI64]
    have e2 : f32AsI64 ((1 : ℚ) / 10 * 100) = 10 := by
      norm_num [f32AsI64]
    simp only [eviction_score, c4e1, c4e2, testEntry, e1, e2]
    omega
  · show evict_from_cache 0 [c4e1, c4e2] c4store 1 = .ok c4store'
    unfold evict_from_cache
    simp only [List.map_cons, List.map_nil, h1, h2]
    rw [show c4e1.id = "1" from rfl, show c4e2.id = "2" from rfl,
      mergeSort_pair]
    norm_num
    rfl

/-! ## C3 — payloads and slots have equal key sets -/

/-- The C3 invariant: an id has a payload iff it has an embedding slot. -/
def KeysetInv (s : InMemoryDB) : Prop :=
  ∀ id, (mapLookup id s.payloads).isSome ↔ (mapLookup id s.id_to_idx).isSome

/-- A successful `insert` updates both maps with the entry's id. -/
theorem insert_ok_maps {s : InMemoryDB} {e : List ℚ} {entry : MemoryEntry}
    {s' : InMemoryDB} (h : s.insert e entry = .ok s') :
    ∃ idx, s'.id_to_idx = mapInsert entry.id idx s.id_to_idx ∧
      s'.payloads = mapInsert entry.id entry s.payloads := by
  unfold InMemoryDB.insert at h
  split at h
  · split at h
    · split at h
      · exact ⟨_, by injection h with h'; rw [← h'], by injection h with h'; rw [← h']⟩
      · cases h
    · exact ⟨_, by injection h with h'; rw [← h'], by injection h with h'; rw [← h']⟩
  · cases h

/-- Counterexample to C3: the claimed key-set equality is violated by
`update_payload_by_id` on an absent id — starting from the empty store
(where it holds), updating id `"x"` yields a store whose payload map
contains `"x"` while the slot index does not. -/
theorem keyset_invariant_counterexample :
    KeysetInv (InMemoryDB.new 2) ∧
      (InMemoryDB.new 2).update_payload_by_id "x" (testEntry "x") = .ok c6store ∧
      ¬ KeysetInv c6store := by
  refine ⟨fun id => by simp [InMemoryDB.new, mapLookup], rfl, fun h => ?_⟩
  have := (h "x").mp
  simp [c6store, mapLookup] at this

/-- C3 (amended): the key-set equality of the payload map and the
id-to-slot index is preserved by `insert` and `delete`;
`update_payload_by_id` — and hence the manager's
`update_memory_access` path, which calls it on the cache store —
preserves it provided the id already has a payload.  (On an absent id,
`update_payload_by_id` upserts a payload with no slot and breaks the
equality, as the counterexample shows.) -/
theorem keyset_invariant_amended :
    (∀ (s : InMemoryDB) (e : List ℚ) (entry : MemoryEntry) (s' : InMemoryDB),
      KeysetInv s → s.insert e entry = .ok s' → KeysetInv s') ∧
    (∀ (s : InMemoryDB) (id : String) (s' : InMemoryDB),
      KeysetInv s → s.delete id = .ok s' → KeysetInv s') ∧
    (∀ (s : InMemoryDB) (id : String) (p : MemoryEntry) (s' : InMemoryDB),
      KeysetInv s → (mapLookup id s.payloads).isSome →
      s.update_payload_by_id id p = .ok s' → KeysetInv s') ∧
    (∀ (now : Int) (cfg : MemoryConfig) (m : MemoryManager)
        (memory : MemoryEntry) (m' : MemoryManager),
      (∀ c, m.hot_cache = some c →
        KeysetInv c.store ∧ (mapLookup memory.id c.store.payloads).isSome) →
      m.update_memory_access now cfg memory = .ok m' →
      ∀ c', m'.hot_cache = some c' → KeysetInv c'.store) := by
  have hupd : ∀ (s : InMemoryDB) (id : String) (p : MemoryEntry)
      (s' : InMemoryDB), KeysetInv s → (mapLookup id s.payloads).isSome →
      s.update_payload_by_id id p = .ok s' → KeysetInv s' := by
    intro s id p s' hinv hsome h
    obtain rfl : { s with payloads := mapInsert id p s.payloads } = s' := by
      injection h
    intro id'
    by_cases hid : id' = id
    · subst hid
      simp only [mapLookup_insert_self]
      have := (hinv id').mp hsome
      simp [this]
    · simpa [mapLookup_insert_ne hid] using hinv id'
  refine ⟨?_, ?_, hupd, ?_⟩
  · intro s e entry s' hinv h
    obtain ⟨idx, hidx, hpay⟩ := insert_ok_maps h
    intro id'
    by_cases hid : id' = entry.id
    · subst hid
      simp [hidx, hpay, mapLookup_insert_self]
    · simpa [hidx, hpay, mapLookup_insert_ne hid] using hinv id'
  · intro s id s' hinv h
    unfold InMemoryDB.delete at h
    split at h
    · cases h
    · rename_i arr_pos heq
      injection h with h2
      subst h2
      intro id'
      by_cases hid : id' = id
      · subst hid
        simp [mapLookup_remove_self]
      · simpa [mapLookup_remove_ne hid] using hinv id'
  · intro now cfg m memory m' hpre h
    unfold MemoryManager.update_memory_access at h
    split at h
    · rename_i cache hcache
      dsimp only at h
      split at h
      · split at h
        · cases h
        · rename_i store' hstore
          injection h with h2
          subst h2
          intro c' hc'
          obtain rfl : { cache with store := store' } = c' := by
            simpa using hc'
          obtain ⟨hinv, hsome⟩ := hpre cache hcache
          exact hupd cache.store _ _ _ hinv hsome hstore
      · injection h with h2
        subst h2
        intro c' hc'
        exact (hpre c' hc').1
    · dsimp only at h
      split at h <;>
        (injection h with h2; subst h2; intro c' hc'; exact (hpre c' hc').1)

/-- Witness for C3 (amended): the insert conjunct applied to a concrete
insert into the empty store, and the update conjunct applied to a
concrete payload replacement on that store. -/
theorem keyset_invariant_amended_witness :
    KeysetInv c2s1 := by
  exact keyset_invariant_amended.1 (InMemoryDB.new 2) [1, 0] (testEntry "a")
    c2s1 (fun id => by simp [InMemoryDB.new, mapLookup]) rfl

/-! ## C7 — retrieve: cache first, storage for the remainder -/

/-- C7: `retrieve` embeds the query exactly once (the instrumented call
counter increases by one), searches the configured cache first for up
to `limit` results, and whenever the cache returned fewer than `limit`
it queries durable storage for exactly `limit - cache_results.len()`
more and appends them; the cache records a miss exactly when its result
set was empty (one miss, hits unchanged) and a hit otherwise. -/
theorem retrieve_cache_first (score : List ℚ → List ℚ → ℚ)
    (embed : String → Except Error (List ℚ))
    (storageSearch : List ℚ → Nat → Except Error (List SearchResult))
    (m : MemoryManager) (cache : MemoryCache) (q : String) (limit : Nat)
    (emb : List ℚ) (rs ds : List SearchResult)
    (hcache : m.hot_cache = some cache)
    (hembed : embed q = .ok emb)
    (hsearch : cache.store.search score emb limit = .ok rs)
    (hlt : rs.length < limit)
    (hdeep : storageSearch emb (limit - rs.length) = .ok ds) :
    m.retrieve score embed storageSearch q limit =
      .ok (rs ++ ds,
        { hot_cache := some { cache with cache_stats :=
            if rs.isEmpty then
              { cache.cache_stats with
                misses := cache.cache_stats.misses + 1 }
            else
              { cache.cache_stats with
                hits := cache.cache_stats.hits + 1 } },
          embedCalls := m.embedCalls + 1 }) := by
  unfold MemoryManager.retrieve
  simp only [hembed, hcache, hsearch, hlt, if_true, ite_true, hdeep]

/-- The fixture embedder for the C7 witness: every query embeds to `[1]`. -/
def c7embed : String → Except Error (List ℚ) := fun _ => .ok [1]

/-- The fixture similarity function for the C7 witness. -/
def c7score : List ℚ → List ℚ → ℚ := fun _ _ => 0

/-- The single durable-storage result for the C7 witness. -/
def c7res : SearchResult := { embedding := [1], entry := testEntry "d" }

/-- The fixture durable storage for the C7 witness: always returns
`[c7res]`. -/
def c7storage : List ℚ → Nat → Except Error (List SearchResult) :=
  fun _ _ => .ok [c7res]

/-- An empty hot cache over a 1-dimensional store, no hits or misses yet. -/
def c7cache : MemoryCache :=
  { store := InMemoryDB.new 1, cache_stats := { hits := 0, misses := 0 },
    max_memory_limit := 500 }

/-- `c7cache` after its one recorded miss. -/
def c7cacheMiss : MemoryCache :=
  { store := InMemoryDB.new 1, cache_stats := { hits := 0, misses := 1 },
    max_memory_limit := 500 }

/-- A manager with the configured, empty hot cache and no embed calls yet. -/
def c7mgr : MemoryManager :=
  { hot_cache := some c7cache, embedCalls := 0 }

/-- Witness for C7: with a configured empty cache, `retrieve(q, 3)`
returns results purely from durable storage, records exactly one miss
(and no hit), and embeds once. -/
theorem retrieve_cache_first_witness :
    c7mgr.retrieve c7score c7embed c7storage "q" 3 =
      .ok ([c7res], { hot_cache := some c7cacheMiss, embedCalls := 1 }) := by
  have h := retrieve_cache_first c7score c7embed c7storage c7mgr
    c7cache "q" 3 [1] [] [c7res] rfl rfl
    (by simp [c7cache, InMemoryDB.search, InMemoryDB.searchRows,
      InMemoryDB.attachPayloads, InMemoryDB.new, List.mergeSort_nil])
    (by decide) rfl
  simpa [c7cache, c7cacheMiss] using h

/-! ## C8 — insert / search_by_id round trip -/

/-- Well-formedness of the physical layout: every recorded slot offset
(live or free) addresses a full `dim`-sized region inside the buffer.
Holds for every store reachable by the API (fresh inserts append whole
`dim`-sized regions; deletes recycle offsets unchanged). -/
def SlotsInBounds (s : InMemoryDB) : Prop :=
  (∀ p ∈ s.id_to_idx, p.2 + s.dim ≤ s.data.length) ∧
  (∀ off ∈ s.free_list, off + s.dim ≤ s.data.length)

theorem writeSlice_length {α : Type} (off : Nat) (src l : List α)
    (h : off + src.length ≤ l.length) :
    (writeSlice off src l).length = l.length := by
  simp only [writeSlice, List.length_append, List.length_take,
    List.length_drop]
  rw [Nat.min_eq_left (by omega)]
  omega

theorem listSlice_writeSlice {α : Type} (off : Nat) (src l : List α)
    (h : off + src.length ≤ l.length) :
    listSlice off src.length (writeSlice off src l) = src := by
  unfold listSlice writeSlice
  rw [List.append_assoc,
    List.drop_left' (by rw [List.length_take]; omega),
    List.take_left' rfl]

/-- `insert` on a store with an empty free list appends at the end of
the buffer. -/
theorem insert_append_eq {s : InMemoryDB} {e : List ℚ} {entry : MemoryEntry}
    (hdim : e.length = s.dim) (hfl : s.free_list = []) :
    s.insert e entry = .ok { s with
      data := s.data ++ e
      id_to_idx := mapInsert entry.id s.data.length s.id_to_idx
      payloads := mapInsert entry.id entry s.payloads } := by
  unfold InMemoryDB.insert
  rw [if_pos (by simp [InMemoryDB.matches_dim_size, hdim]), hfl]

/-- `insert` on a store with a non-empty free list pops the head offset
and overwrites that slot in place. -/
theorem insert_reuse_eq {s : InMemoryDB} {e : List ℚ} {entry : MemoryEntry}
    {f : Nat} {rest : List Nat}
    (hdim : e.length = s.dim) (hfl : s.free_list = f :: rest)
    (hf : f + s.dim ≤ s.data.length) :
    s.insert e entry = .ok { s with
      data := writeSlice f e s.data
      free_list := rest
      id_to_idx := mapInsert entry.id f s.id_to_idx
      payloads := mapInsert entry.id entry s.payloads } := by
  unfold InMemoryDB.insert
  rw [if_pos (by simp [InMemoryDB.matches_dim_size, hdim]), hfl]
  exact if_pos hf

/-- `search_by_id` on a store whose index, bounds and payload cooperate. -/
theorem search_by_id_found {s : InMemoryDB} {id : String} {pos : Nat}
    {p : MemoryEntry}
    (hidx : mapLookup id s.id_to_idx = some pos)
    (hpos : pos + s.dim ≤ s.data.length)
    (hpay : mapLookup id s.payloads = some p) :
    s.search_by_id id = .ok { embedding := listSlice pos s.dim s.data
                              entry := p } := by
  unfold InMemoryDB.search_by_id
  simp only [hidx, hpos, if_true, ite_true, hpay]

/-- C8: inserting a dimension-correct embedding `e` under a fresh id
and then `search_by_id(entry.id)` returns exactly `(e, entry)` — the
embedding bit-for-bit and the payload field-for-field — on every
well-formed store. -/
theorem insert_search_by_id_roundtrip (s : InMemoryDB) (e : List ℚ)
    (entry : MemoryEntry) (hdim : e.length = s.dim)
    (hwf : SlotsInBounds s)
    (hfresh : mapLookup entry.id s.id_to_idx = none) :
    ∃ s', s.insert e entry = .ok s' ∧
      s'.search_by_id entry.id = .ok { embedding := e, entry := entry } := by
  cases hfl : s.free_list with
  | nil =>
    refine ⟨_, insert_append_eq hdim hfl, ?_⟩
    refine (search_by_id_found (mapLookup_insert_self _ _ _) ?_
      (mapLookup_insert_self _ _ _)).trans ?_
    · simp only [List.length_append]
      omega
    · have hslice : listSlice s.data.length s.dim (s.data ++ e) = e := by
        unfold listSlice
        rw [List.drop_left, ← hdim, List.take_length]
      rw [hslice]
  | cons f rest =>
    have hf : f + s.dim ≤ s.data.length := hwf.2 f (by rw [hfl]; exact .head _)
    refine ⟨_, insert_reuse_eq hdim hfl hf, ?_⟩
    refine (search_by_id_found (mapLookup_insert_self _ _ _) ?_
      (mapLookup_insert_self _ _ _)).trans ?_
    · rw [writeSlice_length f e s.data (by omega)]
      exact hf
    · have hslice : listSlice f s.dim (writeSlice f e s.data) = e := by
        rw [← hdim]
        exact listSlice_writeSlice f e s.data (by omega)
      rw [hslice]

/-- Witness for C8: round-tripping `[3, 7]` under id `"w"` through the
concrete two-entry store `c2s2` (whose free list is empty) and through
a store with a free slot. -/
theorem insert_search_by_id_roundtrip_witness :
    ∃ s', c2s2.insert [3, 7] (testEntry "w") = .ok s' ∧
      s'.search_by_id "w" = .ok { embedding := [3, 7], entry := testEntry "w" } :=
  insert_search_by_id_roundtrip c2s2 [3, 7] (testEntry "w") (by decide)
    ⟨by decide, by decide⟩ (by decide)

/-! ## C9 — slot reuse keeps the buffer at N·dim -/

/-- Sequential insertion of a batch of `(embedding, entry)` pairs, the
first error or panic short-circuiting, as a caller of `insert` would do. -/
def insertAll (s : InMemoryDB) :
    List (List ℚ × MemoryEntry) → RustResult InMemoryDB
  | [] => .ok s
  | (e, entry) :: rest =>
    match s.insert e entry with
    | .ok s' => insertAll s' rest
    | .err er => .err er
    | .panic => .panic

/-- `delete` on a live id removes it from both maps and pushes its
offset on the free list. -/
theorem delete_found_eq {s : InMemoryDB} {id : String} {pos : Nat}
    (hidx : mapLookup id s.id_to_idx = some pos) :
    s.delete id = .ok { s with
      id_to_idx := mapRemove id s.id_to_idx
      payloads := mapRemove id s.payloads
      free_list := pos :: s.free_list } := by
  unfold InMemoryDB.delete
  rw [hidx]

/-- Inserting dimension-correct pairs into a store with an empty free
list succeeds, keeps the free list empty, and grows the buffer by
exactly `pairs.length * dim`, preserving slot well-formedness. -/
theorem insertAll_fresh (pairs : List (List ℚ × MemoryEntry))
    (s : InMemoryDB) (hfree : s.free_list = [])
    (hdim : ∀ p ∈ pairs, (p.1).length = s.dim)
    (hwf : SlotsInBounds s) :
    ∃ s', insertAll s pairs = .ok s' ∧ s'.dim = s.dim ∧
      s'.free_list = [] ∧
      s'.data.length = s.data.length + pairs.length * s.dim ∧
      SlotsInBounds s' := by
  induction pairs generalizing s with
  | nil => exact ⟨s, rfl, rfl, hfree, by simp, hwf⟩
  | cons p rest ih =>
    obtain ⟨e, entry⟩ := p
    have he : e.length = s.dim := hdim _ (.head _)
    have hstep := @insert_append_eq s e entry he hfree
    have hwf1 : SlotsInBounds { s with
        data := s.data ++ e
        id_to_idx := mapInsert entry.id s.data.length s.id_to_idx
        payloads := mapInsert entry.id entry s.payloads } := by
      constructor
      · intro q hq
        simp only [mapInsert, List.mem_cons] at hq
        rcases hq with rfl | hq
        · simp [List.length_append, he]
        · have := hwf.1 q (List.mem_of_mem_filter hq)
          simp only [List.length_append]
          omega
      · intro off hoff
        have := hwf.2 off hoff
        simp only [List.length_append]
        omega
    obtain ⟨s', h1, h2, h3, h4, h5⟩ := ih { s with
        data := s.data ++ e
        id_to_idx := mapInsert entry.id s.data.length s.id_to_idx
        payloads := mapInsert entry.id entry s.payloads }
      hfree (fun q hq => hdim q (.tail _ hq)) hwf1
    dsimp only at h2 h4
    refine ⟨s', ?_, h2, h3, ?_, h5⟩
    · show insertAll s ((e, entry) :: rest) = .ok s'
      rw [insertAll, hstep]
      exact h1
    · rw [List.length_append] at h4
      simp only [List.length_cons, Nat.succ_mul]
      omega

/-- C9: inserting `N` dimension-correct entries into a fresh store,
deleting one of them, and then inserting one more dimension-correct
entry never grows the embedding buffer beyond `N * dim` floats: the
inserts fill exactly `N * dim`, the delete leaves the buffer untouched
and pushes the freed offset onto the free list, and the final insert
pops that offset and overwrites the slot in place. -/
theorem slot_reuse (dim : Nat) (pairs : List (List ℚ × MemoryEntry))
    (id : String) (e' : List ℚ) (entry' : MemoryEntry)
    (hdim : ∀ p ∈ pairs, (p.1).length = dim) (he' : e'.length = dim) :
    ∃ sN, insertAll (InMemoryDB.new dim) pairs = .ok sN ∧
      sN.data.length = pairs.length * dim ∧
      ∀ idx, mapLookup id sN.id_to_idx = some idx →
        ∃ sD, sN.delete id = .ok sD ∧
          sD.data.length = pairs.length * dim ∧
          ∃ sF, sD.insert e' entry' = .ok sF ∧
            sF.data.length = pairs.length * dim := by
  obtain ⟨sN, h1, hdimN, hfreeN, hlenN, hwfN⟩ :=
    insertAll_fresh pairs (InMemoryDB.new dim) rfl hdim
      ⟨by simp [InMemoryDB.new], by simp [InMemoryDB.new]⟩
  rw [show (InMemoryDB.new dim).data.length = 0 from rfl,
    show (InMemoryDB.new dim).dim = dim from rfl] at hlenN
  rw [show (InMemoryDB.new dim).dim = dim from rfl] at hdimN
  refine ⟨sN, h1, by omega, ?_⟩
  intro idx hidx
  have hbound : idx + sN.dim ≤ sN.data.length :=
    hwfN.1 (id, idx) (mapLookup_mem hidx)
  refine ⟨_, delete_found_eq hidx, by dsimp only; omega, ?_⟩
  have hreuse := @insert_reuse_eq
    { sN with
      id_to_idx := mapRemove id sN.id_to_idx
      payloads := mapRemove id sN.payloads
      free_list := idx :: sN.free_list }
    e' entry' idx sN.free_list
    (by dsimp only; rw [he', hdimN]) rfl hbound
  refine ⟨_, hreuse, ?_⟩
  have hw : (writeSlice idx e' sN.data).length = sN.data.length :=
    writeSlice_length idx e' sN.data (by rw [he', ← hdimN]; exact hbound)
  dsimp only
  omega

/-- Witness for C9: three 1-dimensional inserts, deleting `"b"`, then
one more insert — the buffer stays at `3 * 1` floats. -/
theorem slot_reuse_witness :
    ∃ sN, insertAll (InMemoryDB.new 1)
        [([1], testEntry "a"), ([2], testEntry "b"), ([3], testEntry "c")] =
        .ok sN ∧
      sN.data.length = 3 * 1 ∧
      ∀ idx, mapLookup "b" sN.id_to_idx = some idx →
        ∃ sD, sN.delete "b" = .ok sD ∧ sD.data.length = 3 * 1 ∧
          ∃ sF, sD.insert [4] (testEntry "d") = .ok sF ∧
            sF.data.length = 3 * 1 :=
  slot_reuse 1
    [([1], testEntry "a"), ([2], testEntry "b"), ([3], testEntry "c")]
    "b" [4] (testEntry "d")
    (by intro p hp; fin_cases hp <;> rfl) rfl

/-! ## C10 — eviction deletes the lowest-scoring sampled ids -/

theorem mapRemove_eq_self {β : Type} {k : String} {m : List (String × β)}
    (h : k ∉ m.map Prod.fst) : mapRemove k m = m := by
  induction m with
  | nil => rfl
  | cons p rest ih =>
    obtain ⟨a, b⟩ := p
    simp only [List.map_cons, List.mem_cons] at h
    push_neg at h
    rw [mapRemove_cons, if_neg (fun hh => h.1 hh.symm), ih h.2]

theorem mapRemove_length {β : Type} {k : String} {v : β}
    {m : List (String × β)} (hnd : (m.map Prod.fst).Nodup)
    (h : mapLookup k m = some v) :
    m.length = (mapRemove k m).length + 1 := by
  induction m with
  | nil => simp [mapLookup] at h
  | cons p rest ih =>
    obtain ⟨a, b⟩ := p
    simp only [List.map_cons, List.nodup_cons] at hnd
    rw [mapLookup_cons] at h
    by_cases ha : a = k
    · subst ha
      rw [mapRemove_cons, if_pos rfl, mapRemove_eq_self hnd.1]
      simp
    · rw [if_neg ha] at h
      rw [mapRemove_cons, if_neg ha]
      simp only [List.length_cons]
      rw [ih hnd.2 h]

theorem mapRemove_keys_nodup {β : Type} {k : String} {m : List (String × β)}
    (hnd : (m.map Prod.fst).Nodup) :
    ((mapRemove k m).map Prod.fst).Nodup :=
  ((List.filter_sublist m).map Prod.fst).nodup hnd

/-- Deleting a list of distinct, live ids succeeds and removes exactly
those ids, leaving buffer and dimension untouched and decreasing
`count` by the number of ids. -/
theorem deleteAll_ok (targets : List String) (s : InMemoryDB)
    (hnd : targets.Nodup)
    (hlive : ∀ t ∈ targets, (mapLookup t s.id_to_idx).isSome)
    (hkeys : (s.id_to_idx.map Prod.fst).Nodup) :
    ∃ s', deleteAll s targets = .ok s' ∧
      s'.dim = s.dim ∧ s'.data = s.data ∧
      (∀ id, mapLookup id s'.id_to_idx =
        if id ∈ targets then none else mapLookup id s.id_to_idx) ∧
      s.count = s'.count + targets.length := by
  induction targets generalizing s with
  | nil => exact ⟨s, rfl, rfl, rfl, fun id => by simp, by simp [InMemoryDB.count]⟩
  | cons t ts ih =>
    obtain ⟨pos, hpos⟩ := Option.isSome_iff_exists.mp (hlive t (.head _))
    have hstep := delete_found_eq hpos
    simp only [List.nodup_cons] at hnd
    obtain ⟨s', h1, h2, h3, h4, h5⟩ := ih { s with
        id_to_idx := mapRemove t s.id_to_idx
        payloads := mapRemove t s.payloads
        free_list := pos :: s.free_list }
      hnd.2
      (fun t' ht' => by
        have hne : t' ≠ t := fun hh => hnd.1 (hh ▸ ht')
        show (mapLookup t' (mapRemove t s.id_to_idx)).isSome
        rw [mapLookup_remove_ne hne]
        exact hlive t' (.tail _ ht'))
      (mapRemove_keys_nodup hkeys)
    dsimp only at h2 h3 h4 h5
    refine ⟨s', ?_, h2, h3, ?_, ?_⟩
    · show deleteAll s (t :: ts) = .ok s'
      rw [deleteAll, hstep]
      exact h1
    · intro id
      rw [h4 id]
      by_cases hid : id ∈ ts
      · simp [hid]
      · by_cases hidt : id = t
        · subst hidt
          simp [hid, mapLookup_remove_self]
        · simp [hid, hidt, mapLookup_remove_ne hidt]
    · have hc : s.count = (mapRemove t s.id_to_idx).length + 1 :=
        mapRemove_length hkeys hpos
      simp only [InMemoryDB.count] at *
      simp only [List.length_cons]
      omega

/-- C10: for every store and count, given the random sample of
`min(100, live count)` live entries with distinct ids, eviction sorts
the sampled `(score, id)` pairs ascending by score, deletes exactly the
first `min(count, sample size)` of them — the lowest-scoring sampled
ids — from the underlying store, and never deletes more than `count`
entries. -/
theorem evict_lowest_scoring (now : Int) (s : InMemoryDB)
    (sample : List MemoryEntry) (count : Nat)
    (hnd : (sample.map MemoryEntry.id).Nodup)
    (hlive : ∀ e ∈ sample, (mapLookup e.id s.id_to_idx).isSome)
    (hkeys : (s.id_to_idx.map Prod.fst).Nodup)
    (hsize : sample.length = min 100 s.count) :
    ∃ s', evict_from_cache now sample s count = .ok s' ∧
      (let sorted := (sample.map fun e => (eviction_score now e, e.id)).mergeSort
          (fun a b => decide (a.1 ≤ b.1))
       let targets := (sorted.take count).map Prod.snd
       List.Pairwise (fun a b : Int × String => a.1 ≤ b.1) sorted ∧
       sorted.Perm (sample.map fun e => (eviction_score now e, e.id)) ∧
       targets.length = min count sample.length ∧
       (∀ id, mapLookup id s'.id_to_idx =
         if id ∈ targets then none else mapLookup id s.id_to_idx) ∧
       s.count = s'.count + targets.length ∧
       s.count - s'.count ≤ count) := by
  set f : MemoryEntry → Int × String :=
    fun e => (eviction_score now e, e.id) with hf
  set sorted := (sample.map f).mergeSort (fun a b => decide (a.1 ≤ b.1))
    with hsorted
  set targets := (sorted.take count).map Prod.snd with htargets
  have hperm : sorted.Perm (sample.map f) := List.mergeSort_perm _ _
  have hpair : List.Pairwise
      (fun a b : Int × String => (decide (a.1 ≤ b.1)) = true) sorted :=
    List.sorted_mergeSort
      (by intro a b c hab hbc
          simp only [decide_eq_true_eq] at *
          omega)
      (by intro a b
          simp only [Bool.or_eq_true, decide_eq_true_eq]
          omega)
      (sample.map f)
  have hsnd : (sorted.map Prod.snd).Perm (sample.map MemoryEntry.id) := by
    have := hperm.map Prod.snd
    rwa [List.map_map] at this
  have hndt : targets.Nodup := by
    have h1 : (sorted.map Prod.snd).Nodup := (hsnd.symm.nodup hnd)
    exact ((sorted.take_sublist count).map Prod.snd).nodup h1
  have hlivet : ∀ t ∈ targets, (mapLookup t s.id_to_idx).isSome := by
    intro t ht
    have h1 : t ∈ sorted.map Prod.snd :=
      ((sorted.take_sublist count).map Prod.snd).mem ht
    have h2 : t ∈ sample.map MemoryEntry.id := hsnd.mem_iff.mp h1
    obtain ⟨e, he, rfl⟩ := List.mem_map.mp h2
    exact hlive e he
  have hlen : targets.length = min count sample.length := by
    rw [htargets, List.length_map, List.length_take, hsorted,
      List.length_mergeSort, List.length_map]
  obtain ⟨s', h1, h2, h3, h4, h5⟩ := deleteAll_ok targets s hndt hlivet hkeys
  refine ⟨s', h1, ?_, ?_, hlen, h4, h5, ?_⟩
  · exact List.Pairwise.imp (by simp) hpair
  · exact hperm
  · omega

/-- Witness for C10: evicting one entry from the concrete two-entry
store `c4store` with the full sample. -/
theorem evict_lowest_scoring_witness :
    ∃ s', evict_from_cache 0 [c4e1, c4e2] c4store 1 = .ok s' ∧
      (let sorted := ([c4e1, c4e2].map
          fun e => (eviction_score 0 e, e.id)).mergeSort
          (fun a b => decide (a.1 ≤ b.1))
       let targets := (sorted.take 1).map Prod.snd
       List.Pairwise (fun a b : Int × String => a.1 ≤ b.1) sorted ∧
       sorted.Perm ([c4e1, c4e2].map fun e => (eviction_score 0 e, e.id)) ∧
       targets.length = min 1 [c4e1, c4e2].length ∧
       (∀ id, mapLookup id s'.id_to_idx =
         if id ∈ targets then none else mapLookup id c4store.id_to_idx) ∧
       c4store.count = s'.count + targets.length ∧
       c4store.count - s'.count ≤ 1) :=
  evict_lowest_scoring 0 c4store [c4e1, c4e2] 1
    (by decide) (by decide) (by decide) (by decide)

/-- Witness for C6 (amended): the upsert behaviour at the concrete
absent id `"x"` on an empty 2-dimensional store. -/
theorem update_payload_upserts_witness :
    ∃ s', (InMemoryDB.new 2).update_payload_by_id "x" (testEntry "x") =
        .ok s' ∧
      mapLookup "x" s'.payloads = some (testEntry "x") ∧
      (∀ id', id' ≠ "x" →
        mapLookup id' s'.payloads = mapLookup id' (InMemoryDB.new 2).payloads) ∧
      s'.data = (InMemoryDB.new 2).data ∧
      s'.id_to_idx = (InMemoryDB.new 2).id_to_idx ∧
      s'.free_list = (InMemoryDB.new 2).free_list ∧
      s'.dim = (InMemoryDB.new 2).dim ∧
      s'.count = (InMemoryDB.new 2).count :=
  update_payload_upserts (InMemoryDB.new 2) "x" (testEntry "x")

/-- Witness for C4 (amended): the truncation formula instantiated at
the scenario's entry `"1"` and evaluation time 0. -/
theorem eviction_score_trunc_and_scenario_witness :
    eviction_score 0 c4e1 = (c4e1.access_count : Int) * 1000 +
      f32AsI64 (c4e1.importance * 100) * 100 - (0 - c4e1.last_accessed) :=
  eviction_score_trunc_and_scenario.1 0 c4e1

end Braindump
